import Mathlib

/-!
Verification development for the `nic-ice-charts` daily sea-ice ETL pipeline
(`process.py`).  The pipeline downloads a zipped shapefile per date from the
USNIC archive, normalizes the geometries to EPSG:4326, writes one GeoJSON
file per date, computes a bounding-box envelope, and appends rows to a
parquet catalog.

The shallow embedding below models:
* geometries as records carrying a validity flag and optional bounds
  (`bounds = none` models an empty geometry, the whole `Option Geom` being
  `none` models a missing/null geometry entry);
* the external geometry library (pyproj reprojection, `make_valid`,
  `buffer(0)`) as an explicit `GeoOps` record of opaque-to-us functions,
  about which theorems assume only the documented contracts;
* pandas/geopandas data frames as a list of association-list rows plus an
  explicit column list and row index;
* the orchestrator `main` as a state-passing function over an explicit
  `World` of effect results (download, extraction, file IO outcomes), with
  Python exceptions modelled by `Except`.

Dates in the orchestrator loop are modelled by their ordinals (Python's
`date.toordinal`), which `date + timedelta(days=1)` increments by one; the
`strftime` renderings used for item ids and archive URLs are supplied by the
configuration record.  The calendar-field formatting itself is modelled
separately (`CalDate`, `fmt_mmddyyyy`) for the archive-locator claims.
-/

/-- Model of one shapely geometry: a topological-validity flag and the
axis-aligned bounds `(minx, miny, maxx, maxy)`; `bounds = none` models an
empty geometry (a geometry with no points has no bounds). -/
structure Geom where
  valid : Bool
  bounds : Option (ℚ × ℚ × ℚ × ℚ)
deriving DecidableEq

/-- Shapely `geom.is_empty`. -/
def Geom.isEmptyGeom (g : Geom) : Bool := g.bounds.isNone

/-- The external geometry operations used by `to_geojson_ll`
(process.py lines 14-22 and 93-108): reprojection from a source EPSG code
into EPSG:4326, the optionally-importable `_make_valid` (it is `none` when
both `shapely.validation.make_valid` and `shapely.make_valid` fail to
import, lines 14-22), and `buffer(0)`. -/
structure GeoOps where
  reproject : Nat → Geom → Geom
  makeValid : Option (Geom → Geom)
  buffer0 : Geom → Geom

/-- Model of a GeoDataFrame as used by the pipeline: a CRS tag (EPSG code,
`none` when the CRS is unknown) and the geometry column; a `none` entry is a
missing (null) geometry. -/
structure GDF where
  crs : Option Nat
  geoms : List (Option Geom)
deriving DecidableEq

/-- Lines 95-97 of `to_geojson_ll`: if the CRS is unknown, declare it to be
EPSG:3031 (`set_crs(3031, allow_override=True)`), without transforming. -/
def set_crs_default (gdf : GDF) : GDF :=
  if gdf.crs = none then { gdf with crs := some 3031 } else gdf

/-- Line 98 of `to_geojson_ll`: `gdf_src.to_crs(4326)` reprojects every
(non-null) geometry from the current CRS into EPSG:4326 and retags the
frame.  `to_crs` requires a known CRS; the pipeline calls it only after
`set_crs_default`, so the `getD` default is never exercised there. -/
def to_crs_4326 (ops : GeoOps) (gdf : GDF) : GDF :=
  { crs := some 4326
    geoms := gdf.geoms.map (Option.map (ops.reproject (gdf.crs.getD 3031))) }

/-- Lines 100-101 of `to_geojson_ll`: `if _make_valid:` apply it to every
geometry of the column; when the import failed this stage is a no-op. -/
def make_valid_stage (ops : GeoOps) (gdf : GDF) : GDF :=
  match ops.makeValid with
  | some f => { gdf with geoms := gdf.geoms.map (Option.map f) }
  | none => gdf

/-- Lines 103-105 of `to_geojson_ll`: `buffer(0)` cleanup applied exactly to
the entries that are neither null nor already valid. -/
def buffer0_stage (ops : GeoOps) (gdf : GDF) : GDF :=
  { gdf with
    geoms := gdf.geoms.map fun og =>
      match og with
      | none => none
      | some g => if g.valid then some g else some (ops.buffer0 g) }

/-- Line 107 of `to_geojson_ll`: drop rows whose geometry is empty or null
(`~is_empty & notna`; geopandas evaluates `is_empty` of a null entry as
`False` and `notna` as `False`, so null rows are dropped too). -/
def drop_empty_stage (gdf : GDF) : GDF :=
  { gdf with
    geoms := gdf.geoms.filter fun og =>
      match og with
      | none => false
      | some g => !g.isEmptyGeom }

/-- Lines 93-108: the full normalization `to_geojson_ll`. -/
def to_geojson_ll (ops : GeoOps) (gdf_src : GDF) : GDF :=
  drop_empty_stage (buffer0_stage ops (make_valid_stage ops (to_crs_4326 ops (set_crs_default gdf_src))))

/-- A numpy bound value: either a rational number or NaN (the value numpy's
nan-aware aggregation yields when no numeric datum exists).  No other
floating-point behaviour of the pipeline is relied upon. -/
inductive BVal where
  | nan : BVal
  | q : ℚ → BVal
deriving DecidableEq

/-- Nan-skipping minimum, as used by `total_bounds` aggregation. -/
def bmin : BVal → BVal → BVal
  | BVal.nan, b => b
  | a, BVal.nan => a
  | BVal.q a, BVal.q b => BVal.q (min a b)

/-- Nan-skipping maximum, as used by `total_bounds` aggregation. -/
def bmax : BVal → BVal → BVal
  | BVal.nan, b => b
  | a, BVal.nan => a
  | BVal.q a, BVal.q b => BVal.q (max a b)

/-- Shapely bounds of one geometry column entry: a null entry and an empty
geometry both contribute all-NaN bounds. -/
def geom_bounds_vals (og : Option Geom) : BVal × BVal × BVal × BVal :=
  match og.bind Geom.bounds with
  | none => (BVal.nan, BVal.nan, BVal.nan, BVal.nan)
  | some (a, b, c, d) => (BVal.q a, BVal.q b, BVal.q c, BVal.q d)

/-- One aggregation step of `total_bounds`. -/
def tb_step (acc : BVal × BVal × BVal × BVal) (og : Option Geom) : BVal × BVal × BVal × BVal :=
  let b := geom_bounds_vals og
  (bmin acc.1 b.1, bmin acc.2.1 b.2.1, bmax acc.2.2.1 b.2.2.1, bmax acc.2.2.2 b.2.2.2)

/-- Geopandas `gdf.total_bounds`: nan-aware `(min minx, min miny, max maxx,
max maxy)` over the per-geometry bounds; all-NaN on an empty frame. -/
def total_bounds (gdf : GDF) : BVal × BVal × BVal × BVal :=
  gdf.geoms.foldl tb_step (BVal.nan, BVal.nan, BVal.nan, BVal.nan)

/-- IEEE comparison of two bound values: any comparison involving NaN is
false, including NaN with itself. -/
def bval_eq_ieee : BVal → BVal → Bool
  | BVal.q a, BVal.q b => a == b
  | _, _ => false

/-- The LinearRing closure validation performed when a polygon ring is
built: the first coordinate must equal the (auto-appended) last one, under
IEEE semantics. -/
def ring_closes (first last : BVal × BVal) : Bool :=
  bval_eq_ieee first.1 last.1 && bval_eq_ieee first.2 last.2

/-- `shapely.geometry.box(minx, miny, maxx, maxy)`: builds
`Polygon([(maxx,miny), (maxx,maxy), (minx,maxy), (minx,miny)])` (default
counter-clockwise corner order; the closing repetition of the first corner
is auto-appended and left implicit in the returned corner list).  The
polygon's ring construction validates closure by comparing the first corner
with the appended copy of itself; with a NaN coordinate that IEEE
comparison is false and GEOS raises, so `box` over NaN bounds is an error,
not a value. -/
def box (minx miny maxx maxy : BVal) : Except String (List (BVal × BVal)) :=
  let coords := [(maxx, miny), (maxx, maxy), (minx, maxy), (minx, miny)]
  if ring_closes (maxx, miny) (maxx, miny) then Except.ok coords
  else Except.error "GEOSException: IllegalArgumentException: Points of LinearRing do not form a closed linestring"

/-- Lines 111-114: `bbox_envelope` builds the envelope polygon from
`total_bounds` alone (no union/dissolve operation appears in it); it
propagates the GEOS construction error that `box` raises on NaN bounds. -/
def bbox_envelope (gdf : GDF) : Except String (List (BVal × BVal)) :=
  let b := total_bounds gdf
  box b.1 b.2.1 b.2.2.1 b.2.2.2

/-- Lines 52-56: `date_iter(d0, d1)` on date ordinals; `d += timedelta(days=1)`
is ordinal successor and `d <= d1` is ordinal comparison. -/
def date_iter (d0 d1 : Nat) : List Nat :=
  if _h : d0 ≤ d1 then d0 :: date_iter (d0 + 1) d1 else []
termination_by d1 + 1 - d0
decreasing_by omega

/-- A calendar date as year/month/day fields, for the `strftime` renderings. -/
structure CalDate where
  year : Nat
  month : Nat
  day : Nat
deriving DecidableEq

/-- Two-digit zero padding, as `%m` and `%d` of `strftime` produce. -/
def pad2 (n : Nat) : String := if n < 10 then "0" ++ toString n else toString n

/-- The `d.strftime('%m%d%Y')` rendering used by `usnic_zip_url` (line 61). -/
def fmt_mmddyyyy (d : CalDate) : String :=
  pad2 d.month ++ pad2 d.day ++ toString d.year

/-- Lines 59-61: `usnic_zip_url(d)`; the `prd` query parameter is the source
code followed by the `MMDDYYYY` rendering of the date. -/
def usnic_zip_url (pcode : String) (d : CalDate) : String :=
  "https://usicecenter.gov/File/DownloadArchive?prd=" ++ pcode ++ fmt_mmddyyyy d

/-- A catalog cell: the pipeline itself only ever stores an id string, a
timestamp (kept as the date ordinal `pd.to_datetime` was applied to), an
href string, an envelope polygon, or the `pd.NA` missing marker. -/
inductive Cell where
  | str : String → Cell
  | dt : Nat → Cell
  | geom : List (BVal × BVal) → Cell
  | na : Cell
deriving DecidableEq

/-- The `astype(str)` coercion of one cell (line 128); only the rendering of
actual strings matters to the proofs. -/
def cellToString : Cell → String
  | Cell.str s => s
  | Cell.dt n => toString n
  | Cell.geom _ => "<geometry>"
  | Cell.na => "<NA>"

/-- A data-frame row, as an association list from column name to cell. -/
abbrev Row := List (String × Cell)

/-- Value of a row at a column (first binding wins, as a dict lookup). -/
def lookupCell (r : Row) (c : String) : Option Cell :=
  (r.find? fun p => p.1 == c).map (fun p => p.2)

/-- Model of a (Geo)DataFrame: ordered column names, the row index, and the
rows. -/
structure DF where
  cols : List String
  idx : List Nat
  rows : List Row
deriving DecidableEq

/-- Column assignment `df[c] = v` with a scalar: overwrites an existing
column in place, otherwise appends a new column at the end filled with `v`. -/
def assignCol (df : DF) (c : String) (v : Cell) : DF :=
  if c ∈ df.cols then
    { df with rows := df.rows.map fun r => r.map fun p => if p.1 == c then (p.1, v) else p }
  else
    { df with cols := df.cols ++ [c], rows := df.rows.map fun r => r ++ [(c, v)] }

/-- Column selection/reordering `df[cs]` (every name of `cs` is present in
the frame whenever the pipeline uses this). -/
def selectCols (df : DF) (cs : List String) : DF :=
  { cols := cs
    idx := df.idx
    rows := df.rows.map fun r => cs.map fun c => (c, (lookupCell r c).getD Cell.na) }

/-- Lines 186-189 of `main`: add every column of `existing` that is missing
from `df_new`, filled with `pd.NA`. -/
def add_missing_cols (df_new : DF) (cs : List String) : DF :=
  cs.foldl (fun acc c => if c ∈ acc.cols then acc else assignCol acc c Cell.na) df_new

/-- `pd.concat([a, b], ignore_index=True)` for frames with equal column
lists: rows of `a` then rows of `b`, with a fresh contiguous index. -/
def concat_ignore_index (a b : DF) : DF :=
  { cols := a.cols
    idx := List.range (a.rows.length + b.rows.length)
    rows := a.rows ++ b.rows }

/-- Lines 183-191 of `main`: the catalog merge.  `existing.empty` holds for
the bootstrap frame (columns but no rows), so it is modelled by the row list
being empty. -/
def merge_catalog (existing df_new : DF) : DF :=
  if existing.rows.isEmpty then df_new
  else
    let df_new2 := add_missing_cols df_new existing.cols
    let df_new3 := selectCols df_new2 existing.cols
    concat_ignore_index existing df_new3

/-- The canonical bootstrap catalog of `load_existing_parquet` (lines 86-90):
columns `id, datetime, href, geometry`, no rows. -/
def empty_catalog : DF :=
  { cols := ["id", "datetime", "href", "geometry"], idx := [], rows := [] }

/-- The frame `gpd.GeoDataFrame(new_rows, ...)` of line 181: the staged rows
with the canonical columns and a fresh range index. -/
def mk_new_df (rows : List Row) : DF :=
  { cols := ["id", "datetime", "href", "geometry"]
    idx := List.range rows.length
    rows := rows }

/-- Configuration of one run (the environment-derived constants of lines
27-44), with the date range as ordinals and the two `strftime` renderings of
an ordinal (`%Y%m%d` for item ids, `%m%d%Y` for archive URLs) supplied as
pure functions. -/
structure Config where
  d0 : Nat
  d1 : Nat
  pcode : String
  assetBase : String
  fmtYMD : Nat → String
  fmtMDY : Nat → String

/-- Results of every external effect one run can perform, fixed up front:
whether the parquet exists, the outcome of reading it, of each download
(keyed by URL), of each archive extraction, of reading a shapefile, of
writing a GeoJSON file, the geometry operations, and the outcomes of the
final parquet save and copy.  An `Except.error` models a raised Python
exception. -/
structure World where
  parquetExists : Bool
  readResult : Except String DF
  download : String → Except String Nat
  extract : Nat → Except String String
  readFile : String → Except String GDF
  writeFile : String → GDF → Except String Unit
  ops : GeoOps
  saveResult : Except String Unit
  copyResult : Except String Unit

/-- Terminal state of one date of the orchestrator loop (the per-date print
messages of lines 135, 144, 150, 156, 176 and the success path). -/
inductive Outcome where
  | skippedPresent : Outcome
  | fetchFailed : String → Outcome
  | emptySource : Outcome
  | normalizeEmpty : Outcome
  | procFailed : String → Outcome
  | written : Outcome
deriving DecidableEq

/-- What one date of the loop produced: its terminal state, the staged
catalog row (success only), the GeoJSON file written (success only), and the
download attempted (at most one). -/
structure DateResult where
  outcome : Outcome
  row : Option Row
  file : Option String
  downloads : List String
deriving DecidableEq

/-- The item id `f"USNIC_{d.strftime('%Y%m%d')}"` of line 133. -/
def item_id_of (cfg : Config) (d : Nat) : String := "USNIC_" ++ cfg.fmtYMD d

/-- The archive URL of line 138 for an ordinal date, built exactly as
`usnic_zip_url` does. -/
def zip_url_of (cfg : Config) (d : Nat) : String :=
  "https://usicecenter.gov/File/DownloadArchive?prd=" ++ cfg.pcode ++ cfg.fmtMDY d

/-- The staged catalog row of lines 166-173: item id, timestamp, public
href, and the computed envelope geometry. -/
def written_row (cfg : Config) (d : Nat) (geom_env : List (BVal × BVal)) : Row :=
  [("id", Cell.str (item_id_of cfg d)),
   ("datetime", Cell.dt d),
   ("href", Cell.str (cfg.assetBase ++ "/" ++ item_id_of cfg d ++ ".geojson")),
   ("geometry", Cell.geom geom_env)]

/-- Lines 138-177 of `main`: the body of the loop after the already-present
check.  The two `try/except` blocks are modelled by matching on the `Except`
results: any error in download/extraction yields the first skip message
(line 144), any error while reading or writing the dataset yields the
second (line 176); the two explicit emptiness checks (lines 149 and 155) skip
with their own messages. -/
def attempt_date (cfg : Config) (w : World) (d : Nat) : DateResult :=
  let url := zip_url_of cfg d
  match w.download url with
  | Except.error e => ⟨Outcome.fetchFailed e, none, none, [url]⟩
  | Except.ok zbytes =>
    match w.extract zbytes with
    | Except.error e => ⟨Outcome.fetchFailed e, none, none, [url]⟩
    | Except.ok shp_path =>
      match w.readFile shp_path with
      | Except.error e => ⟨Outcome.procFailed e, none, none, [url]⟩
      | Except.ok gdf_src =>
        if gdf_src.geoms.isEmpty || gdf_src.geoms.all (fun og => og.isNone) then
          ⟨Outcome.emptySource, none, none, [url]⟩
        else
          let gdf_ll := to_geojson_ll w.ops gdf_src
          if gdf_ll.geoms.isEmpty then
            ⟨Outcome.normalizeEmpty, none, none, [url]⟩
          else
            let fname := item_id_of cfg d ++ ".geojson"
            match w.writeFile fname gdf_ll with
            | Except.error e => ⟨Outcome.procFailed e, none, none, [url]⟩
            | Except.ok _ =>
              match bbox_envelope gdf_ll with
              | Except.error e =>
                -- line 164 sits inside the second try block, after the file
                -- write of line 161: a GEOS error here is caught at line
                -- 175, skipping the date but leaving the written file
                ⟨Outcome.procFailed e, none, some fname, [url]⟩
              | Except.ok geom_env =>
                ⟨Outcome.written, some (written_row cfg d geom_env), some fname, [url]⟩

/-- Lines 132-177: one date of the loop, including the already-present skip
of lines 134-136 (which happens before any download). -/
def processDate (cfg : Config) (w : World) (ids : List String) (d : Nat) : DateResult :=
  if item_id_of cfg d ∈ ids then ⟨Outcome.skippedPresent, none, none, []⟩
  else attempt_date cfg w d

/-- Accumulated effects of the whole date loop. -/
structure LoopState where
  newRows : List Row
  files : List String
  outcomes : List (Nat × Outcome)
  downloads : List String
deriving DecidableEq

/-- The date loop of lines 132-177 over a list of ordinals, preserving the
order in which rows are staged and files are written. -/
def processAll (cfg : Config) (w : World) (ids : List String) : List Nat → LoopState
  | [] => ⟨[], [], [], []⟩
  | d :: ds =>
    let r := processDate cfg w ids d
    let st := processAll cfg w ids ds
    ⟨r.row.toList ++ st.newRows, r.file.toList ++ st.files,
     (d, r.outcome) :: st.outcomes, r.downloads ++ st.downloads⟩

/-- Observable result of a completed run: the catalog content that is now
persisted (the input catalog when nothing was saved), whether the parquet
was (re)written, the GeoJSON files written, and the per-date outcomes and
download attempts. -/
structure RunResult where
  catalog : DF
  saved : Bool
  files : List String
  outcomes : List (Nat × Outcome)
  downloads : List String
deriving DecidableEq

/-- Line 128: `set(existing["id"].astype(str)) if not existing.empty else
set()`.  Indexing a non-empty frame without an `id` column raises a
`KeyError`, which nothing catches. -/
def existing_ids_of (df : DF) : Except String (List String) :=
  if df.rows.isEmpty then Except.ok []
  else if "id" ∈ df.cols then
    Except.ok (df.rows.map fun r => cellToString ((lookupCell r "id").getD Cell.na))
  else Except.error "KeyError: id"

/-- Lines 127-201 of `main` after the catalog has been loaded: compute the
existing ids, run the date loop, then (lines 180-196) merge and save only
when at least one new row was staged, and finally (lines 198-201) copy the
parquet to the output directory whenever it exists — it exists at that point
iff it existed before the run or was just saved.  Errors of the save
(`to_parquet`) and of the copy (`shutil.copy`) are not caught by anything
and so propagate. -/
def runFrom (cfg : Config) (w : World) (ex0 : Bool) (existing : DF) (ds : List Nat) :
    Except String RunResult :=
  match existing_ids_of existing with
  | Except.error e => Except.error e
  | Except.ok ids =>
    let st := processAll cfg w ids ds
    match st.newRows with
    | [] =>
      if ex0 then
        match w.copyResult with
        | Except.error e => Except.error e
        | Except.ok _ => Except.ok ⟨existing, false, st.files, st.outcomes, st.downloads⟩
      else Except.ok ⟨existing, false, st.files, st.outcomes, st.downloads⟩
    | r :: rs =>
      let df_out := merge_catalog existing (mk_new_df (r :: rs))
      match w.saveResult with
      | Except.error e => Except.error e
      | Except.ok _ =>
        match w.copyResult with
        | Except.error e => Except.error e
        | Except.ok _ => Except.ok ⟨df_out, true, st.files, st.outcomes, st.downloads⟩

/-- Lines 82-90: `load_existing_parquet` reads the parquet when present
(propagating any read error) and otherwise bootstraps the canonical empty
catalog. -/
def load_existing_parquet (w : World) : Except String DF :=
  if w.parquetExists then w.readResult else Except.ok empty_catalog

/-- Lines 120-201: the whole of `main`. -/
def mainModel (cfg : Config) (w : World) : Except String RunResult :=
  match load_existing_parquet w with
  | Except.error e => Except.error e
  | Except.ok existing => runFrom cfg w w.parquetExists existing (date_iter cfg.d0 cfg.d1)

/-- Unfolding equation of `date_iter` in the stepping case. -/
theorem date_iter_of_le {d0 d1 : Nat} (h : d0 ≤ d1) :
    date_iter d0 d1 = d0 :: date_iter (d0 + 1) d1 := by
  rw [date_iter, dif_pos h]

/-- Unfolding equation of `date_iter` in the stopping case. -/
theorem date_iter_of_gt {d0 d1 : Nat} (h : ¬ d0 ≤ d1) :
    date_iter d0 d1 = [] := by
  rw [date_iter, dif_neg h]

/-- The loop over a single date. -/
theorem date_iter_self (d : Nat) : date_iter d d = [d] := by
  rw [date_iter_of_le (Nat.le_refl d), date_iter_of_gt (by omega)]

/-- Closed form of the date loop: the `d1 + 1 - d0` consecutive ordinals
starting at `d0`. -/
theorem date_iter_closed_form (d0 d1 : Nat) :
    date_iter d0 d1 = (List.range (d1 + 1 - d0)).map (fun i => d0 + i) := by
  induction d0, d1 using date_iter.induct with
  | case1 d0 d1 h ih =>
    rw [date_iter_of_le h, ih]
    have h2 : d1 + 1 - d0 = (d1 + 1 - (d0 + 1)) + 1 := by omega
    rw [h2, List.range_succ_eq_map, List.map_cons, List.map_map]
    refine congrArg₂ _ (by omega) (List.map_congr_left ?_)
    intro a _
    simp [Function.comp]
    omega
  | case2 d0 d1 h =>
    rw [date_iter_of_gt h]
    have h2 : d1 + 1 - d0 = 0 := by omega
    rw [h2]
    rfl

/-- C9: for every pair of dates `d0 ≤ d1`, `date_iter` produces exactly
`d1 - d0 + 1` calendar dates, strictly ascending, starting at `d0` and
ending at `d1`, each consecutive pair differing by exactly one day, and
equal start and end dates yield a single-element sequence. -/
theorem date_iter_spec (d0 d1 : Nat) (h : d0 ≤ d1) :
    (date_iter d0 d1).length = d1 - d0 + 1 ∧
    (∀ i, (hi : i < (date_iter d0 d1).length) → (date_iter d0 d1)[i] = d0 + i) ∧
    List.Chain' (fun a b => b = a + 1) (date_iter d0 d1) ∧
    List.Pairwise (· < ·) (date_iter d0 d1) ∧
    (date_iter d0 d1).head? = some d0 ∧
    (date_iter d0 d1).getLast? = some d1 ∧
    (d0 = d1 → date_iter d0 d1 = [d0]) := by
  have hlen : (date_iter d0 d1).length = d1 - d0 + 1 := by
    rw [date_iter_closed_form]
    simp
    omega
  have hget : ∀ i, (hi : i < (date_iter d0 d1).length) → (date_iter d0 d1)[i] = d0 + i := by
    intro i hi
    have hi2 : i < (List.range (d1 + 1 - d0)).length := by
      rw [date_iter_closed_form] at hi
      simpa using hi
    simp [date_iter_closed_form]
  refine ⟨hlen, hget, ?_, ?_, ?_, ?_, ?_⟩
  · rw [List.chain'_iff_get]
    intro i hlt
    have h1 : i < (date_iter d0 d1).length := by omega
    have h2 : i + 1 < (date_iter d0 d1).length := by omega
    rw [List.get_eq_getElem, List.get_eq_getElem, hget i h1, hget (i + 1) h2]
    omega
  · rw [List.pairwise_iff_getElem]
    intro i j hi hj hij
    rw [hget i hi, hget j hj]
    omega
  · have h0 : 0 < (date_iter d0 d1).length := by omega
    rw [List.head?_eq_getElem?, List.getElem?_eq_getElem h0, hget 0 h0]
    rfl
  · have h0 : (date_iter d0 d1).length - 1 < (date_iter d0 d1).length := by omega
    rw [List.getLast?_eq_getElem?, List.getElem?_eq_getElem h0, hget _ h0, hlen]
    have : d0 + (d1 - d0 + 1 - 1) = d1 := by omega
    rw [this]
  · intro he
    subst he
    exact date_iter_self d0

/-- Witness for `date_iter_spec` at the concrete range `2 ≤ 4`. -/
theorem date_iter_spec_witness :
    2 ≤ 4 ∧
    ((date_iter 2 4).length = 4 - 2 + 1 ∧
     (∀ i, (hi : i < (date_iter 2 4).length) → (date_iter 2 4)[i] = 2 + i) ∧
     List.Chain' (fun a b => b = a + 1) (date_iter 2 4) ∧
     List.Pairwise (· < ·) (date_iter 2 4) ∧
     (date_iter 2 4).head? = some 2 ∧
     (date_iter 2 4).getLast? = some 4 ∧
     (2 = 4 → date_iter 2 4 = [2])) :=
  ⟨by omega, date_iter_spec 2 4 (by omega)⟩

/-- C10: the archive locator is a pure function returning a URL whose query
parameter is the source code concatenated with the date rendered as
`MMDDYYYY`; for 2025-10-03 and code "30" the URL contains `3010032025` (it
ends in it, right after `prd=`). -/
theorem usnic_zip_url_spec :
    (∀ pcode d, usnic_zip_url pcode d =
      "https://usicecenter.gov/File/DownloadArchive?prd=" ++ (pcode ++ fmt_mmddyyyy d)) ∧
    fmt_mmddyyyy ⟨2025, 10, 3⟩ = "10032025" ∧
    usnic_zip_url "30" ⟨2025, 10, 3⟩ =
      "https://usicecenter.gov/File/DownloadArchive?prd=" ++ "3010032025" := by
  refine ⟨fun pcode d => ?_, by decide, by decide⟩
  rw [usnic_zip_url, String.append_assoc]

/-- C6 counterexample: applied to an empty dataset, `bbox_envelope` does
fail loudly — `total_bounds` is all-NaN and the polygon ring construction
inside `box` raises a GEOS closure error — but the raised error is that
GEOS exception, not an `EmptyDatasetError`; no `EmptyDatasetError` exists
anywhere in the code. -/
theorem bbox_envelope_empty_raises_geos :
    bbox_envelope ⟨some 4326, []⟩ =
      Except.error "GEOSException: IllegalArgumentException: Points of LinearRing do not form a closed linestring" ∧
    "GEOSException: IllegalArgumentException: Points of LinearRing do not form a closed linestring" ≠
      "EmptyDatasetError" :=
  ⟨rfl, by decide⟩

/-- C6 amended: applied to an empty dataset the envelope calculator fails
loudly, but with the GEOS ring-closure exception arising from the all-NaN
`total_bounds` of an empty frame (NaN compares unequal to itself), not with
an `EmptyDatasetError` — no error of that name exists in the code. -/
theorem bbox_envelope_empty_raises (crs : Option Nat) :
    bbox_envelope ⟨crs, []⟩ =
      Except.error "GEOSException: IllegalArgumentException: Points of LinearRing do not form a closed linestring" := by
  rfl

/-- Validity of every surviving entry of the buffer stage, given only the
library contract that `buffer(0)` outputs valid geometry: an entry that was
already valid is kept as is, an invalid one is replaced by its `buffer(0)`.
This holds whatever `make_valid` did (or whether it ran at all). -/
theorem buffer0_stage_all_valid {ops : GeoOps}
    (hbuf : ∀ g, (ops.buffer0 g).valid = true)
    (gdf : GDF) {og : Option Geom} (hmem : og ∈ (buffer0_stage ops gdf).geoms)
    {g : Geom} (heq : og = some g) : g.valid = true := by
  subst heq
  simp only [buffer0_stage, List.mem_map] at hmem
  obtain ⟨x, _, hx⟩ := hmem
  match x with
  | none => simp at hx
  | some y =>
    by_cases hv : y.valid
    · simp only [hv, if_true] at hx
      obtain rfl : y = g := by simpa using hx
      exact hv
    · simp only [hv, if_false] at hx
      obtain rfl : ops.buffer0 y = g := by simpa using hx
      exact hbuf y

/-- C1: every geometry surviving normalization is valid, non-empty and the
returned dataset carries the fixed EPSG:4326 CRS; and when normalization
leaves nothing, the caller turns that into a plain skip of the date (no
error, no staged row, no file written). -/
theorem to_geojson_ll_output_invariant (ops : GeoOps)
    (hbuf : ∀ g, (ops.buffer0 g).valid = true) :
    (∀ gdf, (to_geojson_ll ops gdf).crs = some 4326) ∧
    (∀ gdf og, og ∈ (to_geojson_ll ops gdf).geoms →
      ∃ g, og = some g ∧ g.valid = true ∧ g.bounds ≠ none) ∧
    (∀ cfg (w : World) ids d zbytes shp gsrc, w.ops = ops →
      item_id_of cfg d ∉ ids →
      w.download (zip_url_of cfg d) = Except.ok zbytes →
      w.extract zbytes = Except.ok shp →
      w.readFile shp = Except.ok gsrc →
      (gsrc.geoms.isEmpty || gsrc.geoms.all fun og => og.isNone) = false →
      (to_geojson_ll ops gsrc).geoms = [] →
      processDate cfg w ids d = ⟨Outcome.normalizeEmpty, none, none, [zip_url_of cfg d]⟩) := by
  refine ⟨?_, ?_, ?_⟩
  · intro gdf
    cases h : ops.makeValid <;>
      simp [to_geojson_ll, drop_empty_stage, buffer0_stage, make_valid_stage, h, to_crs_4326]
  · intro gdf og hmem
    simp only [to_geojson_ll, drop_empty_stage, List.mem_filter] at hmem
    obtain ⟨hmem, hkeep⟩ := hmem
    match hcase : og with
    | none => simp at hkeep
    | some g =>
      refine ⟨g, rfl, buffer0_stage_all_valid hbuf _ hmem rfl, ?_⟩
      have hsome : g.bounds.isSome = true := by simpa [Geom.isEmptyGeom] using hkeep
      exact Option.isSome_iff_ne_none.mp hsome
  · intro cfg w ids d zbytes shp gsrc hops hmem hdl hex hrf hne hempty
    subst hops
    rw [processDate, if_neg hmem, attempt_date]
    simp [hdl, hex, hrf, hne, hempty]

/-- Everything `to_geojson_ll` needs from the library holds of this trivial
instantiation of the external geometry operations. -/
def ops0 : GeoOps :=
  ⟨fun _ g => g, some (fun g => { g with valid := true }), fun g => { g with valid := true }⟩

/-- The external geometry operations with the `make_valid` import failed. -/
def ops_none : GeoOps :=
  ⟨fun _ g => g, none, fun g => { g with valid := true }⟩

/-- Witness for `to_geojson_ll_output_invariant` at the concrete operations
`ops0`. -/
theorem to_geojson_ll_output_invariant_witness :
    (∀ g, (ops0.buffer0 g).valid = true) ∧
    ((∀ gdf, (to_geojson_ll ops0 gdf).crs = some 4326) ∧
     (∀ gdf og, og ∈ (to_geojson_ll ops0 gdf).geoms →
       ∃ g, og = some g ∧ g.valid = true ∧ g.bounds ≠ none) ∧
     (∀ cfg (w : World) ids d zbytes shp gsrc, w.ops = ops0 →
       item_id_of cfg d ∉ ids →
       w.download (zip_url_of cfg d) = Except.ok zbytes →
       w.extract zbytes = Except.ok shp →
       w.readFile shp = Except.ok gsrc →
       (gsrc.geoms.isEmpty || gsrc.geoms.all fun og => og.isNone) = false →
       (to_geojson_ll ops0 gsrc).geoms = [] →
       processDate cfg w ids d = ⟨Outcome.normalizeEmpty, none, none, [zip_url_of cfg d]⟩)) :=
  ⟨fun _ => rfl, to_geojson_ll_output_invariant ops0 (fun _ => rfl)⟩

/-- C2: the repair pass is applied to every geometry right after
reprojection whenever the `make_valid` primitive imported, and even when it
did not (`ops.makeValid = none`, a no-op stage), the unconditionally-run
`buffer(0)` pass still repairs every invalid geometry, so after the repair
stages every remaining non-null geometry is valid either way. -/
theorem make_valid_never_skipped (ops : GeoOps)
    (hbuf : ∀ g, (ops.buffer0 g).valid = true) :
    (∀ f gdf, ops.makeValid = some f →
      (make_valid_stage ops gdf).geoms = gdf.geoms.map (Option.map f)) ∧
    (∀ gdf og g,
      og ∈ (buffer0_stage ops (make_valid_stage ops (to_crs_4326 ops (set_crs_default gdf)))).geoms →
      og = some g → g.valid = true) := by
  constructor
  · intro f gdf hf
    rw [make_valid_stage, hf]
  · intro gdf og g hmem heq
    exact buffer0_stage_all_valid hbuf _ hmem heq

/-- Witness for `make_valid_never_skipped` at the concrete operations
`ops_none`, where the `make_valid` primitive is unavailable. -/
theorem make_valid_never_skipped_witness :
    (∀ g, (ops_none.buffer0 g).valid = true) ∧
    ((∀ f gdf, ops_none.makeValid = some f →
       (make_valid_stage ops_none gdf).geoms = gdf.geoms.map (Option.map f)) ∧
     (∀ gdf og g,
       og ∈ (buffer0_stage ops_none (make_valid_stage ops_none (to_crs_4326 ops_none (set_crs_default gdf)))).geoms →
       og = some g → g.valid = true)) :=
  ⟨fun _ => rfl, make_valid_never_skipped ops_none (fun _ => rfl)⟩

/-- The numeric bounds actually present in a frame: per-geometry
`(minx, miny, maxx, maxy)` of the non-null, non-empty entries. -/
def bounds_list (gdf : GDF) : List (ℚ × ℚ × ℚ × ℚ) :=
  gdf.geoms.filterMap fun og => og.bind Geom.bounds

/-- NaN is a right identity of the nan-skipping minimum. -/
theorem bmin_nan_right (a : BVal) : bmin a BVal.nan = a := by
  cases a <;> rfl

/-- NaN is a right identity of the nan-skipping maximum. -/
theorem bmax_nan_right (a : BVal) : bmax a BVal.nan = a := by
  cases a <;> rfl

/-- An entry without numeric bounds does not move the aggregation. -/
theorem tb_step_no_bounds {og : Option Geom} (h : og.bind Geom.bounds = none)
    (acc : BVal × BVal × BVal × BVal) : tb_step acc og = acc := by
  have hb : geom_bounds_vals og = (BVal.nan, BVal.nan, BVal.nan, BVal.nan) := by
    rw [geom_bounds_vals, h]
  simp [tb_step, hb, bmin_nan_right, bmax_nan_right]

/-- An entry with numeric bounds contributes them to the aggregation. -/
theorem tb_step_with_bounds {og : Option Geom} {bb : ℚ × ℚ × ℚ × ℚ}
    (h : og.bind Geom.bounds = some bb) (acc : BVal × BVal × BVal × BVal) :
    tb_step acc og =
      (bmin acc.1 (BVal.q bb.1), bmin acc.2.1 (BVal.q bb.2.1),
       bmax acc.2.2.1 (BVal.q bb.2.2.1), bmax acc.2.2.2 (BVal.q bb.2.2.2)) := by
  have hb : geom_bounds_vals og = (BVal.q bb.1, BVal.q bb.2.1, BVal.q bb.2.2.1, BVal.q bb.2.2.2) := by
    rw [geom_bounds_vals, h]
  rw [tb_step, hb]

/-- One `total_bounds` step over numeric bounds only. -/
def qstep (acc : BVal × BVal × BVal × BVal) (bb : ℚ × ℚ × ℚ × ℚ) : BVal × BVal × BVal × BVal :=
  (bmin acc.1 (BVal.q bb.1), bmin acc.2.1 (BVal.q bb.2.1),
   bmax acc.2.2.1 (BVal.q bb.2.2.1), bmax acc.2.2.2 (BVal.q bb.2.2.2))

/-- The aggregation only sees the numeric bounds: null and empty entries are
skipped. -/
theorem tb_fold_filterMap :
    ∀ (l : List (Option Geom)) (acc : BVal × BVal × BVal × BVal),
      l.foldl tb_step acc = (l.filterMap fun og => og.bind Geom.bounds).foldl qstep acc := by
  intro l
  induction l with
  | nil => intro acc; rfl
  | cons og rest ih =>
    intro acc
    match h : og.bind Geom.bounds with
    | none =>
      have hfm : List.filterMap (fun og => og.bind Geom.bounds) (og :: rest) =
          List.filterMap (fun og => og.bind Geom.bounds) rest := by
        simp [List.filterMap_cons, h]
      rw [List.foldl_cons, tb_step_no_bounds h, hfm, ih]
    | some bb =>
      have hfm : List.filterMap (fun og => og.bind Geom.bounds) (og :: rest) =
          bb :: List.filterMap (fun og => og.bind Geom.bounds) rest := by
        simp [List.filterMap_cons, h]
      rw [List.foldl_cons, tb_step_with_bounds h, hfm, List.foldl_cons, ih]
      rfl

/-- Aggregating numeric bounds from a numeric accumulator is plain min/max
folding. -/
theorem qstep_fold_q :
    ∀ (l : List (ℚ × ℚ × ℚ × ℚ)) (a b c d : ℚ),
      l.foldl qstep (BVal.q a, BVal.q b, BVal.q c, BVal.q d) =
        (BVal.q (l.foldl (fun acc bb => min acc bb.1) a),
         BVal.q (l.foldl (fun acc bb => min acc bb.2.1) b),
         BVal.q (l.foldl (fun acc bb => max acc bb.2.2.1) c),
         BVal.q (l.foldl (fun acc bb => max acc bb.2.2.2) d)) := by
  intro l
  induction l with
  | nil => intro a b c d; rfl
  | cons bb rest ih =>
    intro a b c d
    rw [List.foldl_cons]
    exact ih (min a bb.1) (min b bb.2.1) (max c bb.2.2.1) (max d bb.2.2.2)

/-- A min-fold is bounded by its seed. -/
theorem foldl_min_le_init {α : Type} (f : α → ℚ) :
    ∀ (l : List α) (a : ℚ), l.foldl (fun acc x => min acc (f x)) a ≤ a := by
  intro l
  induction l with
  | nil => intro a; exact le_refl a
  | cons x rest ih =>
    intro a
    exact le_trans (ih (min a (f x))) (min_le_left _ _)

/-- A min-fold is bounded by every element. -/
theorem foldl_min_le_mem {α : Type} (f : α → ℚ) :
    ∀ (l : List α) (a : ℚ) (x : α), x ∈ l → l.foldl (fun acc y => min acc (f y)) a ≤ f x := by
  intro l
  induction l with
  | nil => intro a x hx; simp at hx
  | cons y rest ih =>
    intro a x hx
    rcases List.mem_cons.mp hx with rfl | hx
    · exact le_trans (foldl_min_le_init f rest _) (min_le_right _ _)
    · exact ih _ x hx

/-- A min-fold returns its seed or one of the elements. -/
theorem foldl_min_attained {α : Type} (f : α → ℚ) :
    ∀ (l : List α) (a : ℚ),
      l.foldl (fun acc y => min acc (f y)) a = a ∨
      ∃ x ∈ l, l.foldl (fun acc y => min acc (f y)) a = f x := by
  intro l
  induction l with
  | nil => intro a; exact Or.inl rfl
  | cons y rest ih =>
    intro a
    rcases ih (min a (f y)) with h | ⟨x, hx, h⟩
    · rcases min_choice a (f y) with hm | hm
      · exact Or.inl (by rw [List.foldl_cons, h, hm])
      · exact Or.inr ⟨y, List.mem_cons_self y rest, by rw [List.foldl_cons, h, hm]⟩
    · exact Or.inr ⟨x, List.mem_cons_of_mem y hx, by rw [List.foldl_cons, h]⟩

/-- A max-fold is bounded below by its seed. -/
theorem foldl_max_ge_init {α : Type} (f : α → ℚ) :
    ∀ (l : List α) (a : ℚ), a ≤ l.foldl (fun acc x => max acc (f x)) a := by
  intro l
  induction l with
  | nil => intro a; exact le_refl a
  | cons x rest ih =>
    intro a
    exact le_trans (le_max_left _ _) (ih (max a (f x)))

/-- A max-fold dominates every element. -/
theorem foldl_max_ge_mem {α : Type} (f : α → ℚ) :
    ∀ (l : List α) (a : ℚ) (x : α), x ∈ l → f x ≤ l.foldl (fun acc y => max acc (f y)) a := by
  intro l
  induction l with
  | nil => intro a x hx; simp at hx
  | cons y rest ih =>
    intro a x hx
    rcases List.mem_cons.mp hx with rfl | hx
    · exact le_trans (le_max_right _ _) (foldl_max_ge_init f rest _)
    · exact ih _ x hx

/-- A max-fold returns its seed or one of the elements. -/
theorem foldl_max_attained {α : Type} (f : α → ℚ) :
    ∀ (l : List α) (a : ℚ),
      l.foldl (fun acc y => max acc (f y)) a = a ∨
      ∃ x ∈ l, l.foldl (fun acc y => max acc (f y)) a = f x := by
  intro l
  induction l with
  | nil => intro a; exact Or.inl rfl
  | cons y rest ih =>
    intro a
    rcases ih (max a (f y)) with h | ⟨x, hx, h⟩
    · rcases max_choice a (f y) with hm | hm
      · exact Or.inl (by rw [List.foldl_cons, h, hm])
      · exact Or.inr ⟨y, List.mem_cons_self y rest, by rw [List.foldl_cons, h, hm]⟩
    · exact Or.inr ⟨x, List.mem_cons_of_mem y hx, by rw [List.foldl_cons, h]⟩

/-- A box over finite bounds constructs normally: the ring-closure check
succeeds on a NaN-free first corner. -/
theorem box_q_ok (m1 m2 m3 m4 : ℚ) :
    box (BVal.q m1) (BVal.q m2) (BVal.q m3) (BVal.q m4) =
      Except.ok [(BVal.q m3, BVal.q m2), (BVal.q m3, BVal.q m4),
                 (BVal.q m1, BVal.q m4), (BVal.q m1, BVal.q m2)] := by
  simp [box, ring_closes, bval_eq_ieee]

/-- A frame with at least one entry carrying numeric bounds has an all-
numeric `total_bounds`. -/
theorem total_bounds_q (gdf : GDF) (hne : gdf.geoms ≠ [])
    (hall : ∀ og ∈ gdf.geoms, ∃ g bb, og = some g ∧ g.bounds = some bb) :
    ∃ m1 m2 m3 m4 : ℚ,
      total_bounds gdf = (BVal.q m1, BVal.q m2, BVal.q m3, BVal.q m4) := by
  obtain ⟨og0, rest, hcons⟩ : ∃ og0 rest, gdf.geoms = og0 :: rest := by
    match h : gdf.geoms with
    | [] => exact absurd h hne
    | og0 :: rest => exact ⟨og0, rest, rfl⟩
  obtain ⟨g0, bb0, hog0, hb0⟩ := hall og0 (hcons ▸ List.mem_cons_self og0 rest)
  have hbind0 : og0.bind Geom.bounds = some bb0 := by rw [hog0]; simpa using hb0
  have htb : total_bounds gdf =
      (BVal.q ((List.filterMap (fun og => og.bind Geom.bounds) rest).foldl
         (fun acc bb => min acc bb.1) bb0.1),
       BVal.q ((List.filterMap (fun og => og.bind Geom.bounds) rest).foldl
         (fun acc bb => min acc bb.2.1) bb0.2.1),
       BVal.q ((List.filterMap (fun og => og.bind Geom.bounds) rest).foldl
         (fun acc bb => max acc bb.2.2.1) bb0.2.2.1),
       BVal.q ((List.filterMap (fun og => og.bind Geom.bounds) rest).foldl
         (fun acc bb => max acc bb.2.2.2) bb0.2.2.2)) := by
    rw [total_bounds, hcons, List.foldl_cons, tb_step_with_bounds hbind0, tb_fold_filterMap]
    have hinit : (bmin BVal.nan (BVal.q bb0.1), bmin BVal.nan (BVal.q bb0.2.1),
        bmax BVal.nan (BVal.q bb0.2.2.1), bmax BVal.nan (BVal.q bb0.2.2.2)) =
        ((BVal.q bb0.1 : BVal), (BVal.q bb0.2.1 : BVal),
         (BVal.q bb0.2.2.1 : BVal), (BVal.q bb0.2.2.2 : BVal)) := rfl
    rw [hinit, qstep_fold_q]
  exact ⟨_, _, _, _, htb⟩

/-- Every entry surviving normalization is a non-null geometry with numeric
bounds (the drop stage of line 107 keeps exactly those). -/
theorem to_geojson_ll_bounds_some (ops : GeoOps) (gdf : GDF) :
    ∀ og ∈ (to_geojson_ll ops gdf).geoms, ∃ g bb, og = some g ∧ g.bounds = some bb := by
  intro og hmem
  simp only [to_geojson_ll, drop_empty_stage, List.mem_filter] at hmem
  obtain ⟨_, hkeep⟩ := hmem
  match og with
  | none => simp at hkeep
  | some g =>
    have hsome : g.bounds.isSome = true := by simpa [Geom.isEmptyGeom] using hkeep
    obtain ⟨bb, hbb⟩ := Option.isSome_iff_exists.mp hsome
    exact ⟨g, bb, rfl, hbb⟩

/-- On the non-empty output of normalization the envelope construction
never hits the NaN error path: all bounds are numeric, so the ring closes
and `bbox_envelope` returns a polygon.  This is why the GEOS error branch
inside the loop body is dead code in every world. -/
theorem bbox_envelope_normalized_ok (ops : GeoOps) (gsrc : GDF)
    (hne : (to_geojson_ll ops gsrc).geoms.isEmpty = false) :
    ∃ coords, bbox_envelope (to_geojson_ll ops gsrc) = Except.ok coords := by
  have hne2 : (to_geojson_ll ops gsrc).geoms ≠ [] := by
    intro h
    rw [h] at hne
    simp at hne
  obtain ⟨m1, m2, m3, m4, htb⟩ :=
    total_bounds_q (to_geojson_ll ops gsrc) hne2 (to_geojson_ll_bounds_some ops gsrc)
  have hbox : bbox_envelope (to_geojson_ll ops gsrc) =
      Except.ok [(BVal.q m3, BVal.q m2), (BVal.q m3, BVal.q m4),
                 (BVal.q m1, BVal.q m4), (BVal.q m1, BVal.q m2)] := by
    rw [bbox_envelope, htb]
    exact box_q_ok m1 m2 m3 m4
  exact ⟨_, hbox⟩

/-- C7: on a non-empty normalized dataset (every entry non-null with
numeric bounds), `bbox_envelope` is the minimal axis-aligned bounding
rectangle — each side is attained and bounds every geometry — obtained by
numeric aggregation of `total_bounds` alone, returned as the four-corner
`box` whose corner list is exactly the claimed corner cycle
`(minx,miny), (maxx,miny), (maxx,maxy), (minx,maxy)` rotated left once
(same winding order, different starting corner). -/
theorem bbox_envelope_minmax (gdf : GDF)
    (hne : gdf.geoms ≠ [])
    (hall : ∀ og ∈ gdf.geoms, ∃ g bb, og = some g ∧ g.bounds = some bb) :
    ∃ m1 m2 m3 m4 : ℚ,
      total_bounds gdf = (BVal.q m1, BVal.q m2, BVal.q m3, BVal.q m4) ∧
      (∀ bb ∈ bounds_list gdf, m1 ≤ bb.1 ∧ m2 ≤ bb.2.1 ∧ bb.2.2.1 ≤ m3 ∧ bb.2.2.2 ≤ m4) ∧
      (∃ bb ∈ bounds_list gdf, bb.1 = m1) ∧ (∃ bb ∈ bounds_list gdf, bb.2.1 = m2) ∧
      (∃ bb ∈ bounds_list gdf, bb.2.2.1 = m3) ∧ (∃ bb ∈ bounds_list gdf, bb.2.2.2 = m4) ∧
      bbox_envelope gdf = box (BVal.q m1) (BVal.q m2) (BVal.q m3) (BVal.q m4) ∧
      box (BVal.q m1) (BVal.q m2) (BVal.q m3) (BVal.q m4) =
        Except.ok (List.rotateLeft
          [(BVal.q m1, BVal.q m2), (BVal.q m3, BVal.q m2),
           (BVal.q m3, BVal.q m4), (BVal.q m1, BVal.q m4)] 1) := by
  obtain ⟨og0, rest, hcons⟩ : ∃ og0 rest, gdf.geoms = og0 :: rest := by
    match h : gdf.geoms with
    | [] => exact absurd h hne
    | og0 :: rest => exact ⟨og0, rest, rfl⟩
  obtain ⟨g0, bb0, hog0, hb0⟩ := hall og0 (hcons ▸ List.mem_cons_self og0 rest)
  have hbind0 : og0.bind Geom.bounds = some bb0 := by rw [hog0]; simpa using hb0
  have hbl : bounds_list gdf = bb0 :: List.filterMap (fun og => og.bind Geom.bounds) rest := by
    rw [bounds_list, hcons]
    simp [List.filterMap_cons, hbind0]
  set l := List.filterMap (fun og => og.bind Geom.bounds) rest with hl
  have htb : total_bounds gdf =
      (BVal.q (l.foldl (fun acc bb => min acc bb.1) bb0.1),
       BVal.q (l.foldl (fun acc bb => min acc bb.2.1) bb0.2.1),
       BVal.q (l.foldl (fun acc bb => max acc bb.2.2.1) bb0.2.2.1),
       BVal.q (l.foldl (fun acc bb => max acc bb.2.2.2) bb0.2.2.2)) := by
    rw [total_bounds, hcons, List.foldl_cons,
      tb_step_with_bounds hbind0, tb_fold_filterMap, ← hl]
    have hinit : (bmin BVal.nan (BVal.q bb0.1), bmin BVal.nan (BVal.q bb0.2.1),
        bmax BVal.nan (BVal.q bb0.2.2.1), bmax BVal.nan (BVal.q bb0.2.2.2)) =
        ((BVal.q bb0.1 : BVal), (BVal.q bb0.2.1 : BVal),
         (BVal.q bb0.2.2.1 : BVal), (BVal.q bb0.2.2.2 : BVal)) := rfl
    rw [hinit, qstep_fold_q]
  refine ⟨_, _, _, _, htb, ?_, ?_, ?_, ?_, ?_, ?_, ?_⟩
  · intro bb hbb
    rw [hbl] at hbb
    rcases List.mem_cons.mp hbb with rfl | hbb
    · exact ⟨foldl_min_le_init _ l _, foldl_min_le_init _ l _,
        foldl_max_ge_init _ l _, foldl_max_ge_init _ l _⟩
    · exact ⟨foldl_min_le_mem _ l _ bb hbb, foldl_min_le_mem _ l _ bb hbb,
        foldl_max_ge_mem _ l _ bb hbb, foldl_max_ge_mem _ l _ bb hbb⟩
  · rcases foldl_min_attained (fun bb => bb.1) l bb0.1 with h | ⟨x, hx, h⟩
    · exact ⟨bb0, hbl ▸ List.mem_cons_self _ _, h.symm⟩
    · exact ⟨x, hbl ▸ List.mem_cons_of_mem _ hx, h.symm⟩
  · rcases foldl_min_attained (fun bb => bb.2.1) l bb0.2.1 with h | ⟨x, hx, h⟩
    · exact ⟨bb0, hbl ▸ List.mem_cons_self _ _, h.symm⟩
    · exact ⟨x, hbl ▸ List.mem_cons_of_mem _ hx, h.symm⟩
  · rcases foldl_max_attained (fun bb => bb.2.2.1) l bb0.2.2.1 with h | ⟨x, hx, h⟩
    · exact ⟨bb0, hbl ▸ List.mem_cons_self _ _, h.symm⟩
    · exact ⟨x, hbl ▸ List.mem_cons_of_mem _ hx, h.symm⟩
  · rcases foldl_max_attained (fun bb => bb.2.2.2) l bb0.2.2.2 with h | ⟨x, hx, h⟩
    · exact ⟨bb0, hbl ▸ List.mem_cons_self _ _, h.symm⟩
    · exact ⟨x, hbl ▸ List.mem_cons_of_mem _ hx, h.symm⟩
  · rw [bbox_envelope, htb]
  · rw [box_q_ok]
    rfl

/-- The two-geometry dataset of the claim's example: geometries spanning
longitude 10-20 and latitude 40-50. -/
def gdf_example : GDF :=
  ⟨some 4326,
   [some ⟨true, some (10, 40, 15, 45)⟩, some ⟨true, some (15, 45, 20, 50)⟩]⟩

/-- Witness for `bbox_envelope_minmax` at the example dataset; its envelope
computes to the rectangle over longitude 10-20, latitude 40-50, with the
corner cycle of the claim starting at `(20, 40)`. -/
theorem bbox_envelope_minmax_witness :
    bbox_envelope gdf_example =
      Except.ok [(BVal.q 20, BVal.q 40), (BVal.q 20, BVal.q 50),
                 (BVal.q 10, BVal.q 50), (BVal.q 10, BVal.q 40)] ∧
    (∃ m1 m2 m3 m4 : ℚ,
      total_bounds gdf_example = (BVal.q m1, BVal.q m2, BVal.q m3, BVal.q m4) ∧
      (∀ bb ∈ bounds_list gdf_example, m1 ≤ bb.1 ∧ m2 ≤ bb.2.1 ∧ bb.2.2.1 ≤ m3 ∧ bb.2.2.2 ≤ m4) ∧
      (∃ bb ∈ bounds_list gdf_example, bb.1 = m1) ∧ (∃ bb ∈ bounds_list gdf_example, bb.2.1 = m2) ∧
      (∃ bb ∈ bounds_list gdf_example, bb.2.2.1 = m3) ∧ (∃ bb ∈ bounds_list gdf_example, bb.2.2.2 = m4) ∧
      bbox_envelope gdf_example = box (BVal.q m1) (BVal.q m2) (BVal.q m3) (BVal.q m4) ∧
      box (BVal.q m1) (BVal.q m2) (BVal.q m3) (BVal.q m4) =
        Except.ok (List.rotateLeft
          [(BVal.q m1, BVal.q m2), (BVal.q m3, BVal.q m2),
           (BVal.q m3, BVal.q m4), (BVal.q m1, BVal.q m4)] 1)) :=
  ⟨rfl,
   bbox_envelope_minmax gdf_example (by decide)
     (by
       intro og h
       simp only [gdf_example, List.mem_cons, List.not_mem_nil, or_false] at h
       rcases h with rfl | rfl
       · exact ⟨_, _, rfl, rfl⟩
       · exact ⟨_, _, rfl, rfl⟩)⟩

/-- Lookup on a row extended at the front. -/
theorem lookupCell_cons (p : String × Cell) (r : Row) (c : String) :
    lookupCell (p :: r) c = if p.1 = c then some p.2 else lookupCell r c := by
  unfold lookupCell
  by_cases h : p.1 = c
  · rw [List.find?_cons_of_pos _ (by simpa using h), if_pos h]
    rfl
  · rw [List.find?_cons_of_neg _ (by simpa using h), if_neg h]

/-- Lookup distributes over row append, left side winning. -/
theorem lookupCell_append_left :
    ∀ {r : Row} (t : Row) {c : String} {v : Cell},
      lookupCell r c = some v → lookupCell (r ++ t) c = some v := by
  intro r
  induction r with
  | nil => intro t c v h; simp [lookupCell] at h
  | cons p rest ih =>
    intro t c v h
    rw [lookupCell_cons] at h
    rw [List.cons_append, lookupCell_cons]
    by_cases hp : p.1 = c
    · rwa [if_pos hp] at h ⊢
    · rw [if_neg hp] at h ⊢
      exact ih t h

/-- Lookup skips an absent left part of an appended row. -/
theorem lookupCell_append_right :
    ∀ {r : Row} (t : Row) {c : String},
      lookupCell r c = none → lookupCell (r ++ t) c = lookupCell t c := by
  intro r
  induction r with
  | nil => intro t c _; rfl
  | cons p rest ih =>
    intro t c h
    rw [lookupCell_cons] at h
    rw [List.cons_append, lookupCell_cons]
    by_cases hp : p.1 = c
    · rw [if_pos hp] at h; simp at h
    · rw [if_neg hp] at h ⊢
      exact ih t h

/-- Lookup in a row whose keys all lie in `cols` misses any other name. -/
theorem lookupCell_none_of_keys :
    ∀ {r : Row} {cols : List String} {c : String},
      (∀ p ∈ r, p.1 ∈ cols) → c ∉ cols → lookupCell r c = none := by
  intro r
  induction r with
  | nil => intro cols c _ _; rfl
  | cons p rest ih =>
    intro cols c hkeys hc
    rw [lookupCell_cons, if_neg, ]
    · exact ih (fun q hq => hkeys q (List.mem_cons_of_mem p hq)) hc
    · intro hpc
      exact hc (hpc ▸ hkeys p (List.mem_cons_self p rest))

/-- Lookup in an all-NA row finds NA whenever the name is a key. -/
theorem lookupCell_all_na :
    ∀ (extra : Row) (c : String), c ∈ extra.map Prod.fst →
      (∀ p ∈ extra, p.2 = Cell.na) → lookupCell extra c = some Cell.na := by
  intro extra
  induction extra with
  | nil => intro c hc _; simp at hc
  | cons p rest ih =>
    intro c hc hna
    rw [lookupCell_cons]
    by_cases hpc : p.1 = c
    · rw [if_pos hpc, hna p (List.mem_cons_self p rest)]
    · rw [if_neg hpc]
      refine ih c ?_ (fun q hq => hna q (List.mem_cons_of_mem p hq))
      rw [List.map_cons, List.mem_cons] at hc
      rcases hc with h | h
      · exact absurd h.symm hpc
      · exact h

/-- Lookup over a row built by tabulating names: the tabulated value is
found exactly for the tabulated names. -/
theorem lookupCell_map_cols :
    ∀ (cs : List String) (f : String → Cell) (c : String),
      lookupCell (cs.map fun c0 => (c0, f c0)) c =
        if c ∈ cs then some (f c) else none := by
  intro cs f c
  induction cs with
  | nil => simp [lookupCell]
  | cons c0 rest ih =>
    rw [List.map_cons, lookupCell_cons]
    by_cases h : c0 = c
    · subst h
      simp
    · rw [if_neg h, ih]
      by_cases hm : c ∈ rest
      · rw [if_pos hm, if_pos (List.mem_cons_of_mem _ hm)]
      · rw [if_neg hm, if_neg ?_]
        intro hmem
        rcases List.mem_cons.mp hmem with hh | hh
        · exact h hh.symm
        · exact hm hh

/-- Characterization of the column-padding loop of lines 187-189: it appends
to every row one and the same tail `extra` of NA-valued bindings, whose
names are exactly the processed names missing from the frame. -/
theorem add_missing_cols_spec :
    ∀ (cs : List String) (df : DF), ∃ extra : Row,
      (add_missing_cols df cs).cols = df.cols ++ extra.map Prod.fst ∧
      (add_missing_cols df cs).idx = df.idx ∧
      (add_missing_cols df cs).rows = df.rows.map (fun r => r ++ extra) ∧
      (∀ p ∈ extra, p.2 = Cell.na ∧ p.1 ∉ df.cols) ∧
      (∀ c, c ∈ cs → c ∉ df.cols → c ∈ extra.map Prod.fst) := by
  intro cs
  induction cs with
  | nil =>
    intro df
    refine ⟨[], by simp [add_missing_cols], rfl, by simp [add_missing_cols], ?_, ?_⟩
    · intro p hp; simp at hp
    · intro c hc; simp at hc
  | cons c0 rest ih =>
    intro df
    by_cases hc0 : c0 ∈ df.cols
    · have hstep : add_missing_cols df (c0 :: rest) = add_missing_cols df rest := by
        rw [add_missing_cols, List.foldl_cons, if_pos hc0]
        rfl
      obtain ⟨extra, h1, h2, h3, h4, h5⟩ := ih df
      refine ⟨extra, hstep ▸ h1, hstep ▸ h2, hstep ▸ h3, h4, ?_⟩
      intro c hc hnc
      rcases List.mem_cons.mp hc with rfl | hc
      · exact absurd hc0 hnc
      · exact h5 c hc hnc
    · have hstep : add_missing_cols df (c0 :: rest) =
          add_missing_cols (assignCol df c0 Cell.na) rest := by
        rw [add_missing_cols, List.foldl_cons, if_neg hc0]
        rfl
      obtain ⟨extra, h1, h2, h3, h4, h5⟩ := ih (assignCol df c0 Cell.na)
      have hacols : (assignCol df c0 Cell.na).cols = df.cols ++ [c0] := by
        rw [assignCol, if_neg hc0]
      have haidx : (assignCol df c0 Cell.na).idx = df.idx := by
        rw [assignCol, if_neg hc0]
      have harows : (assignCol df c0 Cell.na).rows = df.rows.map fun r => r ++ [(c0, Cell.na)] := by
        rw [assignCol, if_neg hc0]
      refine ⟨(c0, Cell.na) :: extra, ?_, ?_, ?_, ?_, ?_⟩
      · rw [hstep, h1, hacols, List.append_assoc]
        rfl
      · rw [hstep, h2, haidx]
      · rw [hstep, h3, harows, List.map_map]
        refine List.map_congr_left fun r _ => ?_
        simp [List.append_assoc]
      · intro p hp
        rcases List.mem_cons.mp hp with rfl | hp
        · exact ⟨rfl, hc0⟩
        · obtain ⟨hna, hnot⟩ := h4 p hp
          refine ⟨hna, fun hmem => hnot ?_⟩
          rw [hacols]
          exact List.mem_append_left _ hmem
      · intro c hc hnc
        rcases List.mem_cons.mp hc with rfl | hc
        · exact List.mem_cons_self _ _
        · by_cases hca : c ∈ (assignCol df c0 Cell.na).cols
          · rw [hacols] at hca
            rcases List.mem_append.mp hca with h | h
            · exact absurd h hnc
            · simp at h
              subst h
              exact List.mem_cons_self _ _
          · exact List.mem_cons_of_mem _ (h5 c hc hca)

/-- C3: the catalog merge.  With an empty existing catalog the result is
exactly the new records; otherwise the result keeps the existing column
order, pads columns missing from the new records with NA, reorders the new
records' columns to the existing order, concatenates existing rows before
new rows preserving relative order, and carries a fresh contiguous row
index. -/
theorem merge_catalog_spec (existing df_new : DF)
    (hwf : ∀ r ∈ df_new.rows, ∀ p ∈ r, p.1 ∈ df_new.cols) :
    (existing.rows.isEmpty → merge_catalog existing df_new = df_new) ∧
    (¬ existing.rows.isEmpty →
      (merge_catalog existing df_new).cols = existing.cols ∧
      (merge_catalog existing df_new).idx =
        List.range (existing.rows.length + df_new.rows.length) ∧
      (merge_catalog existing df_new).rows.length =
        existing.rows.length + df_new.rows.length ∧
      (∀ i, (hi : i < existing.rows.length) →
        (merge_catalog existing df_new).rows[i]? = some (existing.rows[i])) ∧
      (∀ j, (hj : j < df_new.rows.length) →
        (merge_catalog existing df_new).rows[existing.rows.length + j]? =
          some (existing.cols.map fun c =>
            (c, if c ∈ df_new.cols
                then (lookupCell (df_new.rows[j]) c).getD Cell.na
                else Cell.na)))) := by
  constructor
  · intro he
    rw [merge_catalog, if_pos he]
  · intro he
    rw [merge_catalog, if_neg he]
    obtain ⟨extra, h1, _h2, h3, h4, h5⟩ := add_missing_cols_spec existing.cols df_new
    have hlen2 : (selectCols (add_missing_cols df_new existing.cols) existing.cols).rows.length =
        df_new.rows.length := by
      rw [selectCols, h3]
      simp
    refine ⟨rfl, ?_, ?_, ?_, ?_⟩
    · rw [concat_ignore_index, hlen2]
    · rw [concat_ignore_index]
      simp only [List.length_append]
      rw [hlen2]
    · intro i hi
      rw [concat_ignore_index]
      simp only
      rw [List.getElem?_append_left hi, List.getElem?_eq_getElem hi]
    · intro j hj
      rw [concat_ignore_index]
      simp only
      have hj2 : j < (selectCols (add_missing_cols df_new existing.cols) existing.cols).rows.length := by
        rw [hlen2]; exact hj
      rw [List.getElem?_append_right (Nat.le_add_right _ _), Nat.add_sub_cancel_left,
        List.getElem?_eq_getElem hj2]
      congr 1
      simp only [selectCols, h3, List.getElem_map]
      refine List.map_congr_left fun c hcmem => ?_
      by_cases hcn : c ∈ df_new.cols
      · have hnotex : c ∉ extra.map Prod.fst := by
          intro hmem
          obtain ⟨p, hp, hpc⟩ := List.mem_map.mp hmem
          exact (h4 p hp).2 (hpc ▸ hcn)
        rcases hlook : lookupCell (df_new.rows[j]) c with _ | v
        · rw [lookupCell_append_right extra hlook,
            @lookupCell_none_of_keys extra (extra.map Prod.fst) c
              (fun p hp => List.mem_map_of_mem Prod.fst hp) hnotex,
            if_pos hcn]
        · rw [lookupCell_append_left extra hlook, if_pos hcn]
      · have hrnone : lookupCell (df_new.rows[j]) c = none :=
          lookupCell_none_of_keys (hwf _ (List.getElem_mem hj)) hcn
        have hex : c ∈ extra.map Prod.fst := h5 c hcmem hcn
        rw [lookupCell_append_right extra hrnone,
          lookupCell_all_na extra c hex (fun p hp => (h4 p hp).1), if_neg hcn]
        rfl

/-- A one-row legacy catalog with an extra historical column. -/
def df_legacy : DF :=
  { cols := ["id", "legacy", "datetime", "href", "geometry"]
    idx := [0]
    rows := [[("id", Cell.str "USNIC_20250101"), ("legacy", Cell.str "x"),
              ("datetime", Cell.dt 1), ("href", Cell.str "h"), ("geometry", Cell.na)]] }

/-- A one-row batch of new records with the canonical columns. -/
def df_new_example : DF :=
  mk_new_df [[("id", Cell.str "USNIC_20250102"), ("datetime", Cell.dt 2),
              ("href", Cell.str "h2"), ("geometry", Cell.na)]]

/-- Witness for `merge_catalog_spec` at a concrete legacy catalog and new
batch. -/
theorem merge_catalog_spec_witness :
    (∀ r ∈ df_new_example.rows, ∀ p ∈ r, p.1 ∈ df_new_example.cols) ∧
    ((df_legacy.rows.isEmpty → merge_catalog df_legacy df_new_example = df_new_example) ∧
     (¬ df_legacy.rows.isEmpty →
       (merge_catalog df_legacy df_new_example).cols = df_legacy.cols ∧
       (merge_catalog df_legacy df_new_example).idx =
         List.range (df_legacy.rows.length + df_new_example.rows.length) ∧
       (merge_catalog df_legacy df_new_example).rows.length =
         df_legacy.rows.length + df_new_example.rows.length ∧
       (∀ i, (hi : i < df_legacy.rows.length) →
         (merge_catalog df_legacy df_new_example).rows[i]? = some (df_legacy.rows[i])) ∧
       (∀ j, (hj : j < df_new_example.rows.length) →
         (merge_catalog df_legacy df_new_example).rows[df_legacy.rows.length + j]? =
           some (df_legacy.cols.map fun c =>
             (c, if c ∈ df_new_example.cols
                 then (lookupCell (df_new_example.rows[j]) c).getD Cell.na
                 else Cell.na))))) :=
  ⟨by decide, merge_catalog_spec df_legacy df_new_example (by decide)⟩

/-- Every run of the loop body either stages nothing (no row, no file) or
terminates in the `written` state with the staged row, the GeoJSON file
name, and the one attempted download. -/
theorem attempt_date_cases (cfg : Config) (w : World) (d : Nat) :
    ((attempt_date cfg w d).row = none ∧ (attempt_date cfg w d).file = none) ∨
    (∃ coords, attempt_date cfg w d =
      ⟨Outcome.written, some (written_row cfg d coords),
       some (item_id_of cfg d ++ ".geojson"), [zip_url_of cfg d]⟩) := by
  rcases hdl : w.download (zip_url_of cfg d) with e | z
  · exact Or.inl (by simp [attempt_date, hdl])
  · rcases hex : w.extract z with e | p
    · exact Or.inl (by simp [attempt_date, hdl, hex])
    · rcases hrf : w.readFile p with e | gsrc
      · exact Or.inl (by simp [attempt_date, hdl, hex, hrf])
      · by_cases hsrc : (gsrc.geoms.isEmpty || gsrc.geoms.all fun og => og.isNone) = true
        · exact Or.inl (by simp [attempt_date, hdl, hex, hrf, hsrc])
        · by_cases hll : (to_geojson_ll w.ops gsrc).geoms.isEmpty = true
          · exact Or.inl (by simp [attempt_date, hdl, hex, hrf, hsrc, hll])
          · rcases hwr : w.writeFile (item_id_of cfg d ++ ".geojson") (to_geojson_ll w.ops gsrc)
              with e | u
            · exact Or.inl (by simp [attempt_date, hdl, hex, hrf, hsrc, hll, hwr])
            · obtain ⟨coords, hbox⟩ :=
                bbox_envelope_normalized_ok w.ops gsrc (by simpa using hll)
              refine Or.inr ⟨coords, ?_⟩
              simp [attempt_date, hdl, hex, hrf, hsrc, hll, hwr, hbox]

/-- A date whose item id is already cataloged is skipped before any
download (lines 134-136). -/
theorem processDate_skip_present (cfg : Config) (w : World) {ids : List String} {d : Nat}
    (h : item_id_of cfg d ∈ ids) :
    processDate cfg w ids d = ⟨Outcome.skippedPresent, none, none, []⟩ := by
  rw [processDate, if_pos h]

/-- A date whose item id is not yet cataloged runs the loop body. -/
theorem processDate_not_present (cfg : Config) (w : World) {ids : List String} {d : Nat}
    (h : item_id_of cfg d ∉ ids) :
    processDate cfg w ids d = attempt_date cfg w d := by
  rw [processDate, if_neg h]

/-- A terminal state other than `written` stages no row and writes no file. -/
theorem processDate_no_progress (cfg : Config) (w : World) (ids : List String) (d : Nat)
    (h : (processDate cfg w ids d).outcome ≠ Outcome.written) :
    (processDate cfg w ids d).row = none ∧ (processDate cfg w ids d).file = none := by
  by_cases hmem : item_id_of cfg d ∈ ids
  · rw [processDate_skip_present cfg w hmem]
    exact ⟨rfl, rfl⟩
  · rw [processDate_not_present cfg w hmem] at h ⊢
    rcases attempt_date_cases cfg w d with hc | ⟨coords, hc⟩
    · exact hc
    · rw [hc] at h
      exact absurd rfl h

/-- A staged row always carries the date's item id in its `id` column, and
only the four canonical column names. -/
theorem processDate_row_id (cfg : Config) (w : World) (ids : List String) (d : Nat)
    {r : Row} (h : (processDate cfg w ids d).row = some r) :
    lookupCell r "id" = some (Cell.str (item_id_of cfg d)) ∧
    (∀ p ∈ r, p.1 ∈ ["id", "datetime", "href", "geometry"]) := by
  by_cases hmem : item_id_of cfg d ∈ ids
  · rw [processDate_skip_present cfg w hmem] at h
    simp at h
  · rw [processDate_not_present cfg w hmem] at h
    rcases attempt_date_cases cfg w d with ⟨hr, _⟩ | ⟨coords, hc⟩
    · rw [hr] at h; simp at h
    · rw [hc] at h
      obtain rfl : written_row cfg d coords = r := by simpa using h
      constructor
      · rfl
      · intro p hp
        simp only [written_row, List.mem_cons, List.not_mem_nil, or_false] at hp
        rcases hp with rfl | rfl | rfl | rfl <;> simp

/-- The staged rows of a run are exactly the per-date staged rows, in date
order. -/
theorem processAll_newRows (cfg : Config) (w : World) (ids : List String) :
    ∀ ds : List Nat,
      (processAll cfg w ids ds).newRows = ds.filterMap fun d => (processDate cfg w ids d).row := by
  intro ds
  induction ds with
  | nil => rfl
  | cons d rest ih =>
    rw [processAll, List.filterMap_cons]
    rcases h : (processDate cfg w ids d).row with _ | r <;> simp [h, ih]

/-- The written files of a run are exactly the per-date written files, in
date order. -/
theorem processAll_files (cfg : Config) (w : World) (ids : List String) :
    ∀ ds : List Nat,
      (processAll cfg w ids ds).files = ds.filterMap fun d => (processDate cfg w ids d).file := by
  intro ds
  induction ds with
  | nil => rfl
  | cons d rest ih =>
    rw [processAll, List.filterMap_cons]
    rcases h : (processDate cfg w ids d).file with _ | f <;> simp [h, ih]

/-- Every date of the loop gets exactly one recorded terminal outcome. -/
theorem processAll_outcome_dates (cfg : Config) (w : World) (ids : List String) :
    ∀ ds : List Nat, (processAll cfg w ids ds).outcomes.map Prod.fst = ds := by
  intro ds
  induction ds with
  | nil => rfl
  | cons d rest ih =>
    rw [processAll]
    simp [ih]

/-- Extracting the id set succeeds on an empty catalog and on any catalog
with an `id` column. -/
theorem existing_ids_ok {existing : DF}
    (hid : existing.rows.isEmpty ∨ "id" ∈ existing.cols) :
    ∃ ids, existing_ids_of existing = Except.ok ids := by
  by_cases he : existing.rows.isEmpty
  · exact ⟨[], by rw [existing_ids_of, if_pos he]⟩
  · rcases hid with h | h
    · exact absurd h he
    · exact ⟨_, by rw [existing_ids_of, if_neg he, if_pos h]⟩

/-- A run completes normally whatever the per-date effects do, provided the
id extraction, the save, and the copy do not themselves fail. -/
theorem runFrom_ok (cfg : Config) (w : World) (ex0 : Bool) (existing : DF) (ds : List Nat)
    (hid : existing.rows.isEmpty ∨ "id" ∈ existing.cols)
    (hsv : w.saveResult = Except.ok ()) (hcp : w.copyResult = Except.ok ()) :
    ∃ r, runFrom cfg w ex0 existing ds = Except.ok r := by
  obtain ⟨ids, hids⟩ := existing_ids_ok hid
  rcases hnr : (processAll cfg w ids ds).newRows with _ | ⟨r0, rs⟩
  · by_cases hex : ex0 = true
    · refine ⟨⟨existing, false, (processAll cfg w ids ds).files,
        (processAll cfg w ids ds).outcomes, (processAll cfg w ids ds).downloads⟩, ?_⟩
      simp only [runFrom, hids, hnr]
      rw [if_pos hex, hcp]
    · refine ⟨⟨existing, false, (processAll cfg w ids ds).files,
        (processAll cfg w ids ds).outcomes, (processAll cfg w ids ds).downloads⟩, ?_⟩
      simp only [runFrom, hids, hnr]
      rw [if_neg hex]
  · refine ⟨⟨merge_catalog existing (mk_new_df (r0 :: rs)), true, (processAll cfg w ids ds).files,
      (processAll cfg w ids ds).outcomes, (processAll cfg w ids ds).downloads⟩, ?_⟩
    simp only [runFrom, hids, hnr]
    rw [hsv, hcp]

/-- C5: every per-date error (download or extraction failure, unreadable or
empty source, normalization emptiness, write failure) is absorbed by the
loop — it yields a logged terminal outcome for that date, stages no row,
writes no file, and the run still completes; whereas an error while loading
the catalog propagates out of `main`, and so does an error while saving
it. -/
theorem error_propagation_policy (cfg : Config) (w : World) :
    (∀ e, w.parquetExists = true → w.readResult = Except.error e →
      mainModel cfg w = Except.error e) ∧
    (∀ existing, load_existing_parquet w = Except.ok existing →
      (existing.rows.isEmpty ∨ "id" ∈ existing.cols) →
      w.saveResult = Except.ok () → w.copyResult = Except.ok () →
      ∃ r, mainModel cfg w = Except.ok r) ∧
    (∀ existing ids e, load_existing_parquet w = Except.ok existing →
      existing_ids_of existing = Except.ok ids →
      (processAll cfg w ids (date_iter cfg.d0 cfg.d1)).newRows ≠ [] →
      w.saveResult = Except.error e →
      mainModel cfg w = Except.error e) ∧
    (∀ ids d, (processDate cfg w ids d).outcome ≠ Outcome.written →
      (processDate cfg w ids d).row = none ∧ (processDate cfg w ids d).file = none) ∧
    (∀ ids ds, (processAll cfg w ids ds).outcomes.map Prod.fst = ds) := by
  refine ⟨?_, ?_, ?_, ?_, ?_⟩
  · intro e hpe hre
    simp [mainModel, load_existing_parquet, hpe, hre]
  · intro existing hld hid hsv hcp
    obtain ⟨r, hr⟩ := runFrom_ok cfg w w.parquetExists existing (date_iter cfg.d0 cfg.d1) hid hsv hcp
    exact ⟨r, by simp only [mainModel, hld]; exact hr⟩
  · intro existing ids e hld hids hnr hsv
    rcases hcase : (processAll cfg w ids (date_iter cfg.d0 cfg.d1)).newRows with _ | ⟨r0, rs⟩
    · exact absurd hcase hnr
    · simp only [mainModel, hld, runFrom, hids, hcase, hsv]
  · intro ids d h
    exact processDate_no_progress cfg w ids d h
  · intro ids ds
    exact processAll_outcome_dates cfg w ids ds

/-- A concrete single-date configuration. -/
def cfg0 : Config :=
  { d0 := 0, d1 := 0, pcode := "30", assetBase := "http://127.0.0.1:9091/geojsons"
    fmtYMD := fun _ => "20250101", fmtMDY := fun _ => "01012025" }

/-- A world whose catalog read raises. -/
def w_readfail : World :=
  { parquetExists := true
    readResult := Except.error "read fail"
    download := fun _ => Except.error "offline"
    extract := fun _ => Except.error "no shp"
    readFile := fun _ => Except.error "bad file"
    writeFile := fun _ _ => Except.ok ()
    ops := ops0
    saveResult := Except.ok ()
    copyResult := Except.ok () }

/-- A world with no catalog file where every download fails. -/
def w_alldown : World :=
  { w_readfail with parquetExists := false, readResult := Except.ok empty_catalog }

/-- Witness for `error_propagation_policy`: a catalog read error aborts the
concrete run, while a world of failing downloads still completes. -/
theorem error_propagation_policy_witness :
    (w_readfail.parquetExists = true ∧ w_readfail.readResult = Except.error "read fail" ∧
     mainModel cfg0 w_readfail = Except.error "read fail") ∧
    (load_existing_parquet w_alldown = Except.ok empty_catalog ∧
     (∃ r, mainModel cfg0 w_alldown = Except.ok r)) :=
  ⟨⟨rfl, rfl, (error_propagation_policy cfg0 w_readfail).1 "read fail" rfl rfl⟩,
   ⟨rfl, (error_propagation_policy cfg0 w_alldown).2.1 empty_catalog rfl (Or.inl rfl) rfl rfl⟩⟩

/-- A readable one-polygon source dataset. -/
def gdf_src8 : GDF := ⟨some 4326, [some ⟨true, some (10, 40, 20, 50)⟩]⟩

/-- A world where a date processes fully and the catalog saves, but the
final copy of the parquet into the output directory raises. -/
def w_copyfail : World :=
  { parquetExists := false
    readResult := Except.ok empty_catalog
    download := fun _ => Except.ok 0
    extract := fun _ => Except.ok "chart.shp"
    readFile := fun _ => Except.ok gdf_src8
    writeFile := fun _ _ => Except.ok ()
    ops := ops0
    saveResult := Except.ok ()
    copyResult := Except.error "copy failed" }

/-- C8 counterexample: a run whose save succeeds but whose `shutil.copy`
raises does not complete successfully — the copy error escapes `main`
(nothing catches it), contradicting "logged but not fatal". -/
theorem copy_failure_aborts_example :
    mainModel cfg0 w_copyfail = Except.error "copy failed" := by
  have h0 : mainModel cfg0 w_copyfail =
      runFrom cfg0 w_copyfail false empty_catalog (date_iter 0 0) := rfl
  rw [h0, date_iter_self]
  rfl

/-- C8 amended: after a successful catalog save (and in general whenever
the parquet file exists at the end of the run), the orchestrator runs the
copy into the public output directory; a failure of this copy is not
caught — it propagates and aborts the run. -/
theorem copy_failure_propagates (cfg : Config) (w : World) (existing : DF) (ds : List Nat)
    (e : String)
    (hid : existing.rows.isEmpty ∨ "id" ∈ existing.cols)
    (hsv : w.saveResult = Except.ok ())
    (hcp : w.copyResult = Except.error e) :
    runFrom cfg w true existing ds = Except.error e := by
  obtain ⟨ids, hids⟩ := existing_ids_ok hid
  rcases hnr : (processAll cfg w ids ds).newRows with _ | ⟨r0, rs⟩
  · simp only [runFrom, hids, hnr]
    simp [hcp]
  · simp only [runFrom, hids, hnr, hsv]
    simp [hcp]

/-- Witness for `copy_failure_propagates` at the concrete copy-failing
world. -/
theorem copy_failure_propagates_witness :
    (empty_catalog.rows.isEmpty ∨ "id" ∈ empty_catalog.cols) ∧
    w_copyfail.saveResult = Except.ok () ∧
    w_copyfail.copyResult = Except.error "copy failed" ∧
    runFrom cfg0 w_copyfail true empty_catalog [0] = Except.error "copy failed" :=
  ⟨Or.inl rfl, rfl, rfl,
   copy_failure_propagates cfg0 w_copyfail empty_catalog [0] "copy failed" (Or.inl rfl) rfl rfl⟩

/-- The id strings of a catalog, as line 128 computes them. -/
def ids_of (df : DF) : List String :=
  df.rows.map fun r => cellToString ((lookupCell r "id").getD Cell.na)

/-- What a successful id extraction says about the catalog. -/
theorem existing_ids_of_ok_cases {df : DF} {ids : List String}
    (h : existing_ids_of df = Except.ok ids) :
    (df.rows.isEmpty ∧ ids = []) ∨
    (¬ df.rows.isEmpty ∧ "id" ∈ df.cols ∧ ids = ids_of df) := by
  by_cases he : df.rows.isEmpty
  · rw [existing_ids_of, if_pos he] at h
    exact Or.inl ⟨he, by simpa using h.symm⟩
  · rw [existing_ids_of, if_neg he] at h
    by_cases hc : "id" ∈ df.cols
    · rw [if_pos hc] at h
      exact Or.inr ⟨he, hc, by simpa [ids_of] using h.symm⟩
    · rw [if_neg hc] at h
      simp at h

/-- The merged catalog keeps an `id` column. -/
theorem merge_catalog_id_col (existing : DF) (rows : List Row)
    (hidc : ¬ existing.rows.isEmpty → "id" ∈ existing.cols) :
    "id" ∈ (merge_catalog existing (mk_new_df rows)).cols := by
  by_cases he : existing.rows.isEmpty
  · rw [merge_catalog, if_pos he, mk_new_df]
    simp
  · rw [merge_catalog, if_neg he]
    exact hidc he

/-- Merging a non-empty batch leaves a non-empty catalog. -/
theorem merge_catalog_rows_nonempty (existing : DF) {rows : List Row} (hr : rows ≠ []) :
    ¬ (merge_catalog existing (mk_new_df rows)).rows.isEmpty := by
  by_cases he : existing.rows.isEmpty
  · rw [merge_catalog, if_pos he, mk_new_df]
    simpa using hr
  · rw [merge_catalog, if_neg he, concat_ignore_index]
    simp only [List.isEmpty_eq_true, List.append_eq_nil]
    intro ⟨h1, _⟩
    exact he (by simp [h1])

/-- The id strings of the merged catalog are the existing catalog's id
strings followed by the new rows' id strings: column padding and reordering
do not touch the `id` value of any staged row. -/
theorem merge_catalog_ids (existing : DF) (rows : List Row)
    (hidc : ¬ existing.rows.isEmpty → "id" ∈ existing.cols)
    (hsome : ∀ r ∈ rows, (lookupCell r "id").isSome) :
    ids_of (merge_catalog existing (mk_new_df rows)) =
      ids_of existing ++ ids_of (mk_new_df rows) := by
  by_cases he : existing.rows.isEmpty
  · rw [merge_catalog, if_pos he]
    have h0 : ids_of existing = [] := by
      have hrows : existing.rows = [] := by simpa using he
      rw [ids_of, hrows]
      rfl
    rw [h0, List.nil_append]
  · rw [merge_catalog, if_neg he]
    obtain ⟨extra, _h1, _h2, h3, _h4, _h5⟩ := add_missing_cols_spec existing.cols (mk_new_df rows)
    rw [ids_of, concat_ignore_index]
    simp only [selectCols, h3]
    rw [List.map_append]
    congr 1
    rw [List.map_map, List.map_map, ids_of]
    refine List.map_congr_left fun r hr => ?_
    obtain ⟨v, hv⟩ := Option.isSome_iff_exists.mp (hsome r hr)
    have hv2 : lookupCell (r ++ extra) "id" = some v := lookupCell_append_left extra hv
    simp only [Function.comp]
    rw [lookupCell_map_cols existing.cols (fun c => (lookupCell (r ++ extra) c).getD Cell.na) "id",
      if_pos (hidc he), hv2, hv]
    rfl

/-- With a deterministic world, the loop stages nothing against an id set
that is closed under the first run: dates whose id is present are skipped,
and dates whose attempt would succeed already put their id in the set. -/
theorem second_run_rows_none (cfg : Config) (w : World) (ids0 ids1 : List String)
    (ds : List Nat)
    (hsub : ∀ s, s ∈ ids0 → s ∈ ids1)
    (hnew : ∀ d ∈ ds, ∀ r, (processDate cfg w ids0 d).row = some r → item_id_of cfg d ∈ ids1) :
    ∀ d ∈ ds, (processDate cfg w ids1 d).row = none ∧ (processDate cfg w ids1 d).file = none := by
  intro d hd
  by_cases hm1 : item_id_of cfg d ∈ ids1
  · rw [processDate_skip_present cfg w hm1]
    exact ⟨rfl, rfl⟩
  · have hm0 : item_id_of cfg d ∉ ids0 := fun h => hm1 (hsub _ h)
    rw [processDate_not_present cfg w hm1]
    rcases attempt_date_cases cfg w d with hc | ⟨coords, hc⟩
    · exact hc
    · exfalso
      refine hm1 (hnew d hd (written_row cfg d coords) ?_)
      rw [processDate_not_present cfg w hm0, hc]

/-- A run in which no date stages a row returns normally with the catalog
untouched, nothing saved and no file written (provided the copy, when it
runs at all, succeeds — which the first run already established). -/
theorem runFrom_noop_core (cfg : Config) (w : World) (ex2 : Bool) (cat1 : DF) (ds : List Nat)
    (ids1 : List String)
    (hids1 : existing_ids_of cat1 = Except.ok ids1)
    (hrows : ∀ d ∈ ds, (processDate cfg w ids1 d).row = none ∧ (processDate cfg w ids1 d).file = none)
    (hcp : ex2 = true → w.copyResult = Except.ok ()) :
    runFrom cfg w ex2 cat1 ds =
      Except.ok ⟨cat1, false, [], (processAll cfg w ids1 ds).outcomes,
        (processAll cfg w ids1 ds).downloads⟩ := by
  have hnr2 : (processAll cfg w ids1 ds).newRows = [] := by
    rw [processAll_newRows]
    exact List.filterMap_eq_nil_iff.mpr fun d hd => (hrows d hd).1
  have hf2 : (processAll cfg w ids1 ds).files = [] := by
    rw [processAll_files]
    exact List.filterMap_eq_nil_iff.mpr fun d hd => (hrows d hd).2
  simp only [runFrom, hids1, hnr2]
  by_cases hex : ex2 = true
  · rw [if_pos hex, hcp hex, hf2]
  · rw [if_neg hex, hf2]

/-- C4: with an unchanged date range and a deterministic world, a second
run over the catalog left by a first successful run is a no-op: every date
whose item id is already cataloged is skipped before any download, and the
second run stages no row, writes no GeoJSON file, does not rewrite the
catalog, and returns the catalog unchanged (hence no duplicate ids). -/
theorem second_run_noop (cfg : Config) (w : World) (ex0 : Bool) (cat0 : DF) (ds : List Nat)
    (r1 : RunResult) (h1 : runFrom cfg w ex0 cat0 ds = Except.ok r1) :
    (∀ ids d, item_id_of cfg d ∈ ids →
      processDate cfg w ids d = ⟨Outcome.skippedPresent, none, none, []⟩) ∧
    ∃ r2, runFrom cfg w (ex0 || r1.saved) r1.catalog ds = Except.ok r2 ∧
      r2.files = [] ∧ r2.saved = false ∧ r2.catalog = r1.catalog := by
  refine ⟨fun ids d h => processDate_skip_present cfg w h, ?_⟩
  rcases hids0 : existing_ids_of cat0 with e | ids0
  · simp only [runFrom, hids0] at h1
    exact Except.noConfusion h1
  · simp only [runFrom, hids0] at h1
    rcases hnr1 : (processAll cfg w ids0 ds).newRows with _ | ⟨row0, rows1⟩
    · -- the first run staged nothing: its catalog is `cat0` and it saved
      -- nothing, so the second run sees the very same state
      rw [hnr1] at h1
      have hrows1 : ∀ d ∈ ds, (processDate cfg w ids0 d).row = none ∧
          (processDate cfg w ids0 d).file = none := by
        rw [processAll_newRows] at hnr1
        intro d hd
        have hrow := List.filterMap_eq_nil_iff.mp hnr1 d hd
        refine ⟨hrow, ?_⟩
        by_cases hm : item_id_of cfg d ∈ ids0
        · rw [processDate_skip_present cfg w hm]
        · rw [processDate_not_present cfg w hm] at hrow ⊢
          rcases attempt_date_cases cfg w d with hc | ⟨coords, hc⟩
          · exact hc.2
          · rw [hc] at hrow
            simp at hrow
      by_cases hex : ex0 = true
      · rw [if_pos hex] at h1
        rcases hcp : w.copyResult with e | u
        · simp only [hcp] at h1
          exact Except.noConfusion h1
        · simp only [hcp, Except.ok.injEq] at h1
          subst h1
          refine ⟨_, runFrom_noop_core cfg w (ex0 || false) cat0 ds ids0 hids0
            (by simpa using hrows1) (fun _ => hcp), rfl, rfl, rfl⟩
      · rw [if_neg hex] at h1
        simp only [Except.ok.injEq] at h1
        subst h1
        refine ⟨_, runFrom_noop_core cfg w (ex0 || false) cat0 ds ids0 hids0
          (by simpa using hrows1) ?_, rfl, rfl, rfl⟩
        intro hor
        rw [Bool.or_false] at hor
        exact absurd hor hex
    · -- the first run staged and saved at least one row
      rw [hnr1] at h1
      rcases hsv : w.saveResult with e | u
      · simp only [hsv] at h1
        exact Except.noConfusion h1
      · simp only [hsv] at h1
        rcases hcp : w.copyResult with e | u2
        · simp only [hcp] at h1
          exact Except.noConfusion h1
        · simp only [hcp, Except.ok.injEq] at h1
          subst h1
          have hidc : ¬ cat0.rows.isEmpty → "id" ∈ cat0.cols := by
            intro hne
            rcases existing_ids_of_ok_cases hids0 with ⟨h, _⟩ | ⟨_, hc, _⟩
            · exact absurd h hne
            · exact hc
          have hsome : ∀ r ∈ (row0 :: rows1), (lookupCell r "id").isSome = true := by
            intro r hr
            rw [processAll_newRows] at hnr1
            obtain ⟨d, _, hrow⟩ := List.mem_filterMap.mp (hnr1 ▸ hr)
            rw [(processDate_row_id cfg w ids0 d hrow).1]
            rfl
          have hne1 : ¬ (merge_catalog cat0 (mk_new_df (row0 :: rows1))).rows.isEmpty :=
            merge_catalog_rows_nonempty cat0 (by simp)
          have hcol1 : "id" ∈ (merge_catalog cat0 (mk_new_df (row0 :: rows1))).cols :=
            merge_catalog_id_col cat0 (row0 :: rows1) hidc
          have hids1 : existing_ids_of (merge_catalog cat0 (mk_new_df (row0 :: rows1))) =
              Except.ok (ids_of (merge_catalog cat0 (mk_new_df (row0 :: rows1)))) := by
            rw [existing_ids_of, if_neg hne1, if_pos hcol1]
            rfl
          have hmerge_ids := merge_catalog_ids cat0 (row0 :: rows1) hidc hsome
          have hsub : ∀ s, s ∈ ids0 → s ∈ ids_of (merge_catalog cat0 (mk_new_df (row0 :: rows1))) := by
            intro s hs
            rw [hmerge_ids]
            rcases existing_ids_of_ok_cases hids0 with ⟨_, hnil⟩ | ⟨_, _, hval⟩
            · rw [hnil] at hs
              simp at hs
            · rw [hval] at hs
              exact List.mem_append_left _ hs
          have hnew : ∀ d ∈ ds, ∀ r, (processDate cfg w ids0 d).row = some r →
              item_id_of cfg d ∈ ids_of (merge_catalog cat0 (mk_new_df (row0 :: rows1))) := by
            intro d hd r hrow
            rw [hmerge_ids]
            refine List.mem_append_right _ ?_
            have hmem : r ∈ (row0 :: rows1) := by
              rw [processAll_newRows] at hnr1
              rw [← hnr1]
              exact List.mem_filterMap.mpr ⟨d, hd, hrow⟩
            have hid := (processDate_row_id cfg w ids0 d hrow).1
            have : cellToString ((lookupCell r "id").getD Cell.na) = item_id_of cfg d := by
              rw [hid]
              rfl
            exact this ▸ List.mem_map_of_mem _ hmem
          have hrows2 := second_run_rows_none cfg w ids0
            (ids_of (merge_catalog cat0 (mk_new_df (row0 :: rows1)))) ds hsub hnew
          refine ⟨_, runFrom_noop_core cfg w (ex0 || true)
            (merge_catalog cat0 (mk_new_df (row0 :: rows1))) ds _ hids1 hrows2
            (fun _ => hcp), rfl, rfl, rfl⟩

/-- A fully successful world: one processable date, save and copy fine. -/
def w_ok : World := { w_copyfail with copyResult := Except.ok () }

/-- The observable result of the first run of `w_ok` over the single date 0
starting from an empty catalog. -/
def run1_result : RunResult :=
  ⟨⟨["id", "datetime", "href", "geometry"], [0],
    [[("id", Cell.str "USNIC_20250101"), ("datetime", Cell.dt 0),
      ("href", Cell.str "http://127.0.0.1:9091/geojsons/USNIC_20250101.geojson"),
      ("geometry", Cell.geom [(BVal.q 20, BVal.q 40), (BVal.q 20, BVal.q 50),
                              (BVal.q 10, BVal.q 50), (BVal.q 10, BVal.q 40)])]]⟩,
   true, ["USNIC_20250101.geojson"],
   [(0, Outcome.written)],
   ["https://usicecenter.gov/File/DownloadArchive?prd=3001012025"]⟩

/-- Witness for `second_run_noop`: the concrete first run succeeds and the
theorem applies to it. -/
theorem second_run_noop_witness :
    runFrom cfg0 w_ok false empty_catalog [0] = Except.ok run1_result ∧
    ((∀ ids d, item_id_of cfg0 d ∈ ids →
       processDate cfg0 w_ok ids d = ⟨Outcome.skippedPresent, none, none, []⟩) ∧
     ∃ r2, runFrom cfg0 w_ok (false || run1_result.saved) run1_result.catalog [0] = Except.ok r2 ∧
       r2.files = [] ∧ r2.saved = false ∧ r2.catalog = run1_result.catalog) :=
  have h1 : runFrom cfg0 w_ok false empty_catalog [0] = Except.ok run1_result := rfl
  ⟨h1, second_run_noop cfg0 w_ok false empty_catalog [0] run1_result h1⟩

/-- Witness for `bbox_envelope_empty_raises` at a concrete CRS tag. -/
theorem bbox_envelope_empty_raises_witness :
    bbox_envelope ⟨none, []⟩ =
      Except.error "GEOSException: IllegalArgumentException: Points of LinearRing do not form a closed linestring" :=
  bbox_envelope_empty_raises none
